import Mathlib

/-!
Shallow embedding of the core of the ResumeBuilder repository
(profile validation, date and GPA normalization, MOS catalog search,
DOCX layout text assembly, resume generation service), together with
theorems settling the specification claims about it.

Python floats are idealized as rationals; Python `round(x, 2)` is modelled
as round-half-to-even at two decimal places on the rational value.
-/

namespace ResumeBuilder

/-! ## Python string primitives -/

/-- Characters stripped by Python `str.strip()` (whitespace). -/
def isPySpace (c : Char) : Bool :=
  c = ' ' || c = '\t' || c = '\n' || c = '\r' || c = '\x0b' || c = '\x0c'

/-- Python `str.strip()` on a character list: drop whitespace from both ends. -/
def stripList (l : List Char) : List Char :=
  ((l.dropWhile isPySpace).reverse.dropWhile isPySpace).reverse

/-- Python `str.strip()`. -/
def pyStrip (s : String) : String := String.mk (stripList s.data)

/-- Lexicographic less-or-equal on character lists by code point,
matching Python string comparison. -/
def charListLe : List Char → List Char → Bool
  | [], _ => true
  | _ :: _, [] => false
  | a :: as, b :: bs =>
    a.toNat < b.toNat || (a.toNat = b.toNat && charListLe as bs)

/-- Python `s <= t` on strings (code-point lexicographic). -/
def strLeB (s t : String) : Bool := charListLe s.data t.data

/-- Substring containment on character lists (Python `needle in hay`). -/
def containsSub (hay needle : List Char) : Bool :=
  match hay with
  | [] => needle.isEmpty
  | c :: t => needle.isPrefixOf (c :: t) || containsSub t needle

/-- Python `needle in hay` for strings. -/
def strContains (hay needle : String) : Bool := containsSub hay.data needle.data

/-- Python `sep.join(parts)`. -/
def pyJoin (sep : String) : List String → String
  | [] => ""
  | [x] => x
  | x :: y :: t => x ++ sep ++ pyJoin sep (y :: t)

/-! ## Contact.format_phone (src/models.py lines 45-82) -/

/-- Error raised by the phone validator; `badLength` is the branch whose
message names the digit count found
(`Phone number must be exactly 10 digits (US format). You provided n digits`),
`required` is `Phone number is required`, `noDigits` is
`Phone number must contain at least one digit`, `onlyDigits` is
`Phone number can only contain digits` and `unexpected` is the
defensive re-check after stripping the country code. -/
inductive PhoneError where
  | required : PhoneError
  | noDigits : PhoneError
  | onlyDigits : PhoneError
  | badLength : Nat → PhoneError
  | unexpected : Nat → PhoneError
deriving DecidableEq, Repr

/-- The final formatting step `f"({digits[:3]}) {digits[3:6]}-{digits[6:]}"`. -/
def format10 (ds : List Char) : String :=
  "(" ++ String.mk (ds.take 3) ++ ") " ++ String.mk ((ds.drop 3).take 3)
    ++ "-" ++ String.mk (ds.drop 6)

/-- `Contact.format_phone`: strip the input, extract digits, accept exactly
10 digits or 11 digits with a leading 1 (stripped), and format as
`(XXX) XXX-XXXX`. -/
def format_phone (v : String) : Except PhoneError String :=
  if (stripList v.data).isEmpty then Except.error PhoneError.required
  else
    let digits := (stripList v.data).filter Char.isDigit
    if digits.isEmpty then Except.error PhoneError.noDigits
    else if !digits.all Char.isDigit then Except.error PhoneError.onlyDigits
    else if digits.length = 10 then Except.ok (format10 digits)
    else if digits.length = 11 && digits.take 1 = ['1'] then
      let d := digits.drop 1
      if d.length ≠ 10 then Except.error (PhoneError.unexpected d.length)
      else Except.ok (format10 d)
    else Except.error (PhoneError.badLength digits.length)

/-! ## convert_gpa (src/app.py lines 1153-1167 and 2869-2889) -/

/-- Raw GPA input: empty (None or blank), non-numeric text, or a value that
`float(str(value).strip())` parses (idealized as a rational). -/
inductive GpaInput where
  | empty : GpaInput
  | nonNumeric : GpaInput
  | num : ℚ → GpaInput
deriving DecidableEq

/-- Round to the nearest integer, ties to even (Python `round` semantics,
idealized over the rationals). -/
def roundHalfEven (q : ℚ) : ℤ :=
  let f := ⌊q⌋
  if q - f < 1 / 2 then f
  else if 1 / 2 < q - f then f + 1
  else if Even f then f else f + 1

/-- Python `round(x, 2)` idealized over the rationals. -/
def pyRound2 (q : ℚ) : ℚ := (roundHalfEven (q * 100) : ℚ) / 100

/-- The `convert_gpa` helper: rescale a GPA to the 4.0 scale by magnitude,
returning `none` for empty or non-numeric input. -/
def convert_gpa : GpaInput → Option ℚ
  | GpaInput.empty => none
  | GpaInput.nonNumeric => none
  | GpaInput.num gpa =>
    if gpa ≤ 4 then some (pyRound2 gpa)
    else if gpa ≤ 10 then some (pyRound2 (gpa / 10 * 4))
    else if gpa ≤ 100 then some (pyRound2 (gpa / 100 * 4))
    else some 4

/-! ## WorkHistory.validate_end_date (src/models.py lines 158-166) -/

/-- A Python `datetime.date`, compared lexicographically. -/
structure PyDate where
  year : Nat
  month : Nat
  day : Nat
deriving DecidableEq, Repr

/-- Python date comparison `a < b` (lexicographic on year, month, day). -/
def dateLt (a b : PyDate) : Bool :=
  a.year < b.year ||
    (a.year = b.year &&
      (a.month < b.month || (a.month = b.month && a.day < b.day)))

/-- `WorkHistory.validate_end_date`: reject an end date strictly before the
start date, otherwise return the value unchanged. -/
def validate_end_date (start : PyDate) (v : Option PyDate) :
    Except String (Option PyDate) :=
  match v with
  | none => Except.ok none
  | some e =>
    if dateLt e start then Except.error "end_date must be after start_date"
    else Except.ok (some e)

/-! ## parse_date (src/app.py lines 1077-1090 and 2786-2812) -/

/-- Numeric value of a digit string. -/
def digitsVal (l : List Char) : Nat :=
  l.foldl (fun a c => a * 10 + (c.toNat - 48)) 0

/-- Python `int(s)`: strip whitespace, optional sign, digits only. -/
def pyInt (s : String) : Option ℤ :=
  match stripList s.data with
  | [] => none
  | c :: rest =>
    if c = '-' then
      if rest ≠ [] && rest.all Char.isDigit then some (-(digitsVal rest : ℤ))
      else none
    else if c = '+' then
      if rest ≠ [] && rest.all Char.isDigit then some (digitsVal rest : ℤ)
      else none
    else if (c :: rest).all Char.isDigit then
      some (digitsVal (c :: rest) : ℤ)
    else none

/-- The `datetime(year, month, 1).date()` constructor: validates ranges and
returns `none` where the constructor would raise. -/
def mkPyDate (y m : ℤ) : Option PyDate :=
  if 1 ≤ y ∧ y ≤ 9999 ∧ 1 ≤ m ∧ m ≤ 12 then some ⟨y.toNat, m.toNat, 1⟩
  else none

/-- Python `str.lower()` (ASCII). -/
def toLowerStr (s : String) : String := String.mk (s.data.map Char.toLower)

/-- Python `s.split(sep)` for a single-character separator. -/
def splitOnChar (sep : Char) : List Char → List (List Char)
  | [] => [[]]
  | c :: t =>
    match splitOnChar sep t with
    | [] => [[c]]
    | h :: hs => if c = sep then [] :: h :: hs else (c :: h) :: hs

/-- The `parse_date` helper of app.py: `None` for blank or present/current,
`MM/YYYY` or `MM-YYYY` via a two-way split, a bare year otherwise, and on
ANY parse failure the fallback `datetime.now().replace(month=1, day=1)`,
that is, January 1 of the current year, passed here as `today`. -/
def parse_date (today : PyDate) (s : String) : Option PyDate :=
  if s = "" || toLowerStr (pyStrip s) ∈ ["present", "current", ""] then none
  else
    let t := pyStrip s
    let fallback : Option PyDate := some ⟨today.year, 1, 1⟩
    if strContains t "/" then
      match (splitOnChar '/' t.data).map String.mk with
      | [month, year] =>
        match pyInt year, pyInt month with
        | some y, some m =>
          match mkPyDate y m with
          | some d => some d
          | none => fallback
        | _, _ => fallback
      | _ => fallback
    else if strContains t "-" then
      match (splitOnChar '-' t.data).map String.mk with
      | [month, year] =>
        match pyInt year, pyInt month with
        | some y, some m =>
          match mkPyDate y m with
          | some d => some d
          | none => fallback
        | _, _ => fallback
      | _ => fallback
    else
      match pyInt t with
      | some y =>
        match mkPyDate y 1 with
        | some d => some d
        | none => fallback
      | none => fallback

/-! ## Resume generation service
(src/services/resume_service.py lines 39-70,
src/services/resume_generator.py lines 42-90) -/

/-- A filesystem write operation observable during generation. -/
inductive FileOp where
  | save : String → FileOp
  | rename : String → String → FileOp
deriving DecidableEq, Repr

/-- The filesystem writes performed by `DocxResumeGenerator.generate`: the
document is assembled in memory and then saved by `doc.save(output_path)`,
a single direct write at the given path. -/
def generate_file_ops (output_path : String) : List FileOp :=
  [FileOp.save output_path]

/-- `output_path = self.output_dir / output_filename`. -/
def resume_output_path (output_dir output_filename : String) : String :=
  output_dir ++ "/" ++ output_filename

/-- The filesystem writes performed by `ResumeService.generate_resume`:
it delegates to the generator with the final output path. -/
def generate_resume_file_ops (output_dir output_filename : String) :
    List FileOp :=
  generate_file_ops (resume_output_path output_dir output_filename)

/-- The control flow of `ResumeService.generate_resume`: on engine success
return the output path, on engine failure re-raise
`Exception(f"Failed to generate resume: {e}")`. -/
def generate_resume_result (engine : Except String Unit)
    (output_dir output_filename : String) : Except String String :=
  match engine with
  | Except.ok _ =>
    Except.ok (resume_output_path output_dir output_filename)
  | Except.error e => Except.error ("Failed to generate resume: " ++ e)

/-! ## Contact header line
(src/services/docx_utils.py lines 77-119,
src/services/resume_generator.py lines 92-104) -/

/-- `_format_location`: join city and state with a comma, preferring
whichever is non-empty. -/
def format_location (city state : String) : String :=
  if city ≠ "" && state ≠ "" then city ++ ", " ++ state
  else if city ≠ "" then city
  else if state ≠ "" then state
  else ""

/-- The optional tail of `contact_parts` in `add_contact_header`: LinkedIn
if truthy, then the clearance label if truthy and not the string None. -/
def optional_parts (linkedin clearance : Option String) : List String :=
  (match linkedin with
   | some li => if li ≠ "" then [li] else []
   | none => []) ++
    (match clearance with
     | some c => if c ≠ "" && c ≠ "None" then ["Clearance: " ++ c] else []
     | none => [])

/-- `contact_parts = [location, phone, email]` plus the conditional parts;
the first three are appended unconditionally. -/
def contact_parts (location phone email : String)
    (linkedin clearance : Option String) : List String :=
  [location, phone, email] ++ optional_parts linkedin clearance

/-- The single centered contact line `' | '.join(contact_parts)`. -/
def contact_line (location phone email : String)
    (linkedin clearance : Option String) : String :=
  pyJoin " | " (contact_parts location phone email linkedin clearance)

/-- `DocxResumeGenerator._add_contact_section`: location is formatted from
city and state, and the clearance argument is passed only when it differs
from the string None. -/
def add_contact_section_line (city state phone email : String)
    (linkedin : Option String) (security_clearance : String) : String :=
  contact_line (format_location city state) phone email linkedin
    (if security_clearance ≠ "None" then some security_clearance else none)

/-! ## Skills section
(src/services/resume_generator.py lines 218-253,
src/services/docx_utils.py lines 1044-1060) -/

/-- The repeated `for skill in xs: if skill not in skills_list: append`
pattern. -/
def add_unique (acc : List String) (xs : List String) : List String :=
  xs.foldl (fun a s => if s ∈ a then a else a ++ [s]) acc

/-- `_add_skills_section` list building: MOS-translated skills are extended
verbatim, then core skills, tools, ATS keywords and the MOS civilian skills
are appended only when not already present (an absent MOS contributes the
empty civilian list). -/
def merge_skills (mos_translated core tools keywords civilian :
    List String) : List String :=
  add_unique
    (add_unique (add_unique (add_unique mos_translated core) tools) keywords)
    civilian

/-- The rendered skills text: `', '.join(skills_list)` when the merged list
is non-empty, no section otherwise. -/
def skills_text (mos_translated core tools keywords civilian :
    List String) : Option String :=
  let l := merge_skills mos_translated core tools keywords civilian
  if l.isEmpty then none else some (pyJoin ", " l)

/-- The merge described by the spec sentence for the skills section:
concatenate the five sources in priority order and de-duplicate keeping
first occurrences. Stated from the spec for comparison with
`merge_skills`. -/
def spec_merge_skills (mos_translated core tools keywords civilian :
    List String) : List String :=
  add_unique [] (mos_translated ++ core ++ tools ++ keywords ++ civilian)

/-! ## MOS mapping service (src/services/mapping_service.py) -/

/-- Python `str.upper()` (ASCII). -/
def toUpperStr (s : String) : String := String.mk (s.data.map Char.toUpper)

/-- The `MOSMapping` dataclass. -/
structure MOSMapping where
  code : String
  branch : String
  branch_code : String
  personnel_category : String
  title : String
  title_military : String
  soc_code : String
  soc_code_title : String
  soc_title : String
  onet_code : String
  onet_occupation : String
  csv_lookup_key : String
  civilian_equivalent : String
  skills : List String
  keywords : List String
deriving DecidableEq, Repr

/-- `MOSMapping.matches_query`: case-insensitive substring containment
across code, title, and the optional fields guarded by truthiness, plus
every skill and keyword. -/
def matches_query (m : MOSMapping) (query : String) : Bool :=
  let ql := toLowerStr query
  strContains (toLowerStr m.code) ql ||
    strContains (toLowerStr m.title) ql ||
    (!m.title_military.isEmpty &&
      strContains (toLowerStr m.title_military) ql) ||
    (!m.civilian_equivalent.isEmpty &&
      strContains (toLowerStr m.civilian_equivalent) ql) ||
    (!m.soc_title.isEmpty && strContains (toLowerStr m.soc_title) ql) ||
    (!m.onet_occupation.isEmpty &&
      strContains (toLowerStr m.onet_occupation) ql) ||
    m.skills.any (fun s => strContains (toLowerStr s) ql) ||
    m.keywords.any (fun k => strContains (toLowerStr k) ql)

/-- The sort key of `search_mos`: exact uppercased code match first, then
query contained in the lowercased title, then the code string. -/
def search_rank (query : String) (m : MOSMapping) : Nat × Nat × String :=
  (if m.code = toUpperStr query then 0 else 1,
    if strContains (toLowerStr m.title) (toLowerStr query) then 0 else 1,
    m.code)

/-- Python tuple comparison on the sort key (strings by code point). -/
def keyLe (x y : Nat × Nat × String) : Bool :=
  x.1 < y.1 ||
    (x.1 = y.1 &&
      (x.2.1 < y.2.1 || (x.2.1 = y.2.1 && strLeB x.2.2 y.2.2)))

/-- The ranking relation used to sort search results. -/
def rankLE (query : String) (a b : MOSMapping) : Prop :=
  keyLe (search_rank query a) (search_rank query b) = true

instance (query : String) : DecidableRel (rankLE query) := fun a b =>
  instDecidableEqBool (keyLe (search_rank query a) (search_rank query b)) true

/-- The in-memory index `self._mappings`, an insertion-ordered dictionary
from key strings to entries. -/
abbrev MosDict := List (String × MOSMapping)

/-- `dict.values()` in insertion order. -/
def dict_values (d : MosDict) : List MOSMapping := d.map Prod.snd

/-- Python `dict[k] = v`: overwrite in place or append a new key. -/
def dict_set (d : MosDict) (k : String) (v : MOSMapping) : MosDict :=
  if d.any (fun p => p.1 = k) then
    d.map (fun p => if p.1 = k then (k, v) else p)
  else d ++ [(k, v)]

/-- Python `dict.get(k)`. -/
def dict_get (d : MosDict) (k : String) : Option MOSMapping :=
  match d with
  | [] => none
  | p :: t => if p.1 = k then some p.2 else dict_get t k

/-- `MOSMappingService.search_mos`: a query shorter than 2 characters
returns no results; otherwise the matching entries are sorted stably by the
rank key and truncated to `limit`. -/
def search_mos (d : MosDict) (query : String) (limit : Nat) :
    List MOSMapping :=
  if query = "" || query.length < 2 then []
  else
    (List.insertionSort (rankLE query)
      ((dict_values d).filter (fun m => matches_query m query))).take limit

/-- `MOSMappingService.get_all_codes`: the sorted list of index keys. -/
def get_all_codes (d : MosDict) : List String :=
  List.insertionSort (fun a b => strLeB a b = true) (d.map Prod.fst)

/-- One source row with the canonical column names, after the
pandas renaming and `fillna` steps. -/
structure MosRow where
  branch_code : String
  personnel_category : String
  code : String
  title_military : String
  soc_code : String
  soc_code_title : String
  soc_title : String
  onet_code : String
  onet_occupation : String
  csv_lookup_key : String
deriving DecidableEq, Repr

/-- The `branch_map` dictionary lookup. -/
def branch_map_get (s : String) : Option String :=
  if s = "A" then some "Army"
  else if s = "Army" then some "Army"
  else if s = "N" then some "Navy"
  else if s = "Navy" then some "Navy"
  else if s = "AF" then some "Air Force"
  else if s = "Air Force" then some "Air Force"
  else if s = "M" then some "Marines"
  else if s = "Marines" then some "Marines"
  else if s = "CG" then some "Coast Guard"
  else if s = "Coast Guard" then some "Coast Guard"
  else if s = "SF" then some "Space Force"
  else if s = "Space Force" then some "Space Force"
  else if s = "V" then some "Navy"
  else none

/-- Branch derivation: the text before the bar of the lookup key if
present, else the branch code, both passed through `branch_map`, else
Unknown. -/
def derive_branch (lookup_key branch_code : String) : String :=
  if lookup_key ≠ "" && strContains lookup_key "|" then
    let part :=
      String.mk (stripList ((splitOnChar '|' lookup_key.data).headD []))
    (branch_map_get part).getD part
  else if branch_code ≠ "" then
    (branch_map_get branch_code).getD branch_code
  else "Unknown"

/-- Split a character list at every character satisfying the predicate. -/
def splitOnPred (p : Char → Bool) : List Char → List (List Char)
  | [] => [[]]
  | c :: t =>
    match splitOnPred p t with
    | [] => [[c]]
    | h :: hs => if p c then [] :: h :: hs else (c :: h) :: hs

/-- Python `str.split()` with no argument: split on whitespace runs,
discarding empty pieces. -/
def pyWords (s : String) : List String :=
  ((splitOnPred isPySpace s.data).filter (fun w => w ≠ [])).map String.mk

/-- The `MOSMapping` built from one row in `_load_mappings`. -/
def build_mapping (r : MosRow) : MOSMapping :=
  let code := toUpperStr (pyStrip r.code)
  let lookup_key := r.csv_lookup_key
  let branch := derive_branch lookup_key r.branch_code
  let soc_title := pyStrip r.soc_title
  let onet_occupation := pyStrip r.onet_occupation
  let civilian_equivalent :=
    if soc_title ≠ "" then soc_title
    else if onet_occupation ≠ "" then onet_occupation
    else ""
  let skills :=
    if soc_title ≠ "" then
      ((splitOnChar ',' soc_title.data).map
        (fun w => String.mk (stripList w))).filter (fun w => w ≠ "")
    else []
  let title_military := pyStrip r.title_military
  let keywords :=
    if title_military ≠ "" then
      ((pyWords title_military).filter
        (fun w => 3 < (pyStrip w).length)).map pyStrip
    else []
  { code := code, branch := branch, branch_code := pyStrip r.branch_code,
    personnel_category := pyStrip r.personnel_category,
    title := title_military, title_military := title_military,
    soc_code := pyStrip r.soc_code,
    soc_code_title := pyStrip r.soc_code_title, soc_title := soc_title,
    onet_code := pyStrip r.onet_code, onet_occupation := onet_occupation,
    csv_lookup_key := lookup_key,
    civilian_equivalent := civilian_equivalent, skills := skills,
    keywords := keywords }

/-- The per-row step of `_load_mappings`: skip rows with an empty
normalized code, otherwise store the entry under its code and, when the
lookup key is truthy, under the lookup key as well. -/
def load_row (d : MosDict) (r : MosRow) : MosDict :=
  let code := toUpperStr (pyStrip r.code)
  if code = "" then d
  else
    let m := build_mapping r
    let d1 := dict_set d code m
    if r.csv_lookup_key ≠ "" then dict_set d1 r.csv_lookup_key m else d1

/-- `_load_mappings` over the rows of the reference file. -/
def load_mappings (rows : List MosRow) : MosDict := rows.foldl load_row []

/-- A sample catalog row used by concrete witnesses. -/
def sample_row : MosRow :=
  { branch_code := "A", personnel_category := "E", code := "11B",
    title_military := "Infantryman", soc_code := "", soc_code_title := "",
    soc_title := "", onet_code := "", onet_occupation := "",
    csv_lookup_key := "Army|11B" }

/-! ## Helper lemmas -/

theorem isPySpace_not_digit (c : Char) (h : isPySpace c = true) :
    c.isDigit = false := by
  simp only [isPySpace, Bool.or_eq_true, decide_eq_true_eq] at h
  rcases h with ((((h | h) | h) | h) | h) | h <;> subst h <;> rfl

theorem filter_dropWhile_of_excl (p q : Char → Bool)
    (hpq : ∀ a, q a = true → p a = false) :
    ∀ l : List Char, (l.dropWhile q).filter p = l.filter p := by
  intro l
  induction l with
  | nil => rfl
  | cons a t ih =>
    by_cases h : q a = true
    · rw [List.dropWhile_cons_of_pos h, ih, List.filter_cons_of_neg]
      simp [hpq a h]
    · rw [List.dropWhile_cons_of_neg (by simpa using h)]

theorem filter_stripList (l : List Char) :
    (stripList l).filter Char.isDigit = l.filter Char.isDigit := by
  unfold stripList
  rw [List.filter_reverse,
    filter_dropWhile_of_excl Char.isDigit isPySpace isPySpace_not_digit,
    List.filter_reverse, List.reverse_reverse,
    filter_dropWhile_of_excl Char.isDigit isPySpace isPySpace_not_digit]

theorem all_of_filter (p : Char → Bool) (l : List Char) :
    (l.filter p).all p = true := by
  simp only [List.all_eq_true]
  intro a ha
  exact (List.mem_filter.mp ha).2

theorem isEmpty_false_of_ne_nil {α : Type} {l : List α} (h : l ≠ []) :
    l.isEmpty = false := by
  cases l with
  | nil => exact absurd rfl h
  | cons a t => rfl

/-! ## Ordering lemmas for the search rank -/

theorem charListLe_total : ∀ l1 l2 : List Char,
    charListLe l1 l2 = true ∨ charListLe l2 l1 = true
  | [], _ => Or.inl rfl
  | _ :: _, [] => Or.inr rfl
  | a :: as, b :: bs => by
    rcases Nat.lt_trichotomy a.toNat b.toNat with h | h | h
    · left
      simp [charListLe, h]
    · rcases charListLe_total as bs with ih | ih
      · left
        simp [charListLe, h, ih]
      · right
        simp [charListLe, h.symm, ih]
    · right
      simp [charListLe, h]

theorem charListLe_trans : ∀ l1 l2 l3 : List Char,
    charListLe l1 l2 = true → charListLe l2 l3 = true →
      charListLe l1 l3 = true
  | [], _, _ => fun _ _ => rfl
  | _ :: _, [], _ => fun h _ => by simp [charListLe] at h
  | _ :: _, _ :: _, [] => fun _ h => by simp [charListLe] at h
  | a :: as, b :: bs, c :: cs => by
    intro h1 h2
    simp only [charListLe, Bool.or_eq_true, Bool.and_eq_true,
      decide_eq_true_eq] at h1 h2 ⊢
    rcases h1 with h1 | ⟨h1e, h1r⟩
    · rcases h2 with h2 | ⟨h2e, h2r⟩
      · exact Or.inl (Nat.lt_trans h1 h2)
      · exact Or.inl (h2e ▸ h1)
    · rcases h2 with h2 | ⟨h2e, h2r⟩
      · exact Or.inl (h1e ▸ h2)
      · exact Or.inr ⟨h1e.trans h2e, charListLe_trans as bs cs h1r h2r⟩

theorem keyLe_total (x y : Nat × Nat × String) :
    keyLe x y = true ∨ keyLe y x = true := by
  unfold keyLe
  rcases Nat.lt_trichotomy x.1 y.1 with h | h | h
  · left
    simp [h]
  · rcases Nat.lt_trichotomy x.2.1 y.2.1 with h2 | h2 | h2
    · left
      simp [h, h2]
    · rcases charListLe_total x.2.2.data y.2.2.data with h3 | h3
      · left
        simp [h, h2, strLeB, h3]
      · right
        simp [h.symm, h2.symm, strLeB, h3]
    · right
      simp [h.symm, h2]
  · right
    simp [h]

theorem keyLe_trans (x y z : Nat × Nat × String)
    (h1 : keyLe x y = true) (h2 : keyLe y z = true) : keyLe x z = true := by
  unfold keyLe at h1 h2 ⊢
  simp only [Bool.or_eq_true, Bool.and_eq_true, decide_eq_true_eq] at h1 h2 ⊢
  rcases h1 with h1 | ⟨h1e, h1r⟩
  · rcases h2 with h2 | ⟨h2e, h2r⟩
    · exact Or.inl (Nat.lt_trans h1 h2)
    · exact Or.inl (h2e ▸ h1)
  · rcases h2 with h2 | ⟨h2e, h2r⟩
    · exact Or.inl (h1e ▸ h2)
    · refine Or.inr ⟨h1e.trans h2e, ?_⟩
      rcases h1r with h1r | ⟨h1re, h1rs⟩
      · rcases h2r with h2r | ⟨h2re, h2rs⟩
        · exact Or.inl (Nat.lt_trans h1r h2r)
        · exact Or.inl (h2re ▸ h1r)
      · rcases h2r with h2r | ⟨h2re, h2rs⟩
        · exact Or.inl (h1re ▸ h2r)
        · exact Or.inr ⟨h1re.trans h2re,
            charListLe_trans _ _ _ h1rs h2rs⟩

instance (query : String) : IsTotal MOSMapping (rankLE query) :=
  ⟨fun a b => keyLe_total (search_rank query a) (search_rank query b)⟩

instance (query : String) : IsTrans MOSMapping (rankLE query) :=
  ⟨fun _ _ _ h1 h2 => keyLe_trans _ _ _ h1 h2⟩

/-! ## Case-conversion and containment lemmas -/

theorem toLower_toUpper (c : Char) : c.toUpper.toLower = c.toLower := by
  by_cases h : 97 ≤ c.toNat ∧ c.toNat ≤ 122
  · have key : ∀ n : Nat, 97 ≤ n → n ≤ 122 →
        (Char.ofNat n).toUpper.toLower = (Char.ofNat n).toLower := by
      intro n h1 h2
      interval_cases n <;> decide
    have hc := key c.toNat h.1 h.2
    rwa [Char.ofNat_toNat] at hc
  · unfold Char.toUpper
    rw [if_neg h]

theorem toLowerStr_toUpperStr (s : String) :
    toLowerStr (toUpperStr s) = toLowerStr s := by
  unfold toLowerStr toUpperStr
  simp only [List.map_map]
  congr 1
  exact List.map_congr_left fun a _ => toLower_toUpper a

theorem isPrefixOf_self (l : List Char) : l.isPrefixOf l = true := by
  induction l with
  | nil => rfl
  | cons a t ih => simp [List.isPrefixOf, ih]

theorem containsSub_self (l : List Char) : containsSub l l = true := by
  cases l with
  | nil => rfl
  | cons a t =>
    unfold containsSub
    rw [isPrefixOf_self]
    rfl

theorem strContains_self (s : String) : strContains s s = true :=
  containsSub_self s.data

theorem matches_query_of_code (m : MOSMapping) (q : String)
    (h : m.code = toUpperStr q) : matches_query m q = true := by
  unfold matches_query
  simp [h, toLowerStr_toUpperStr, strContains_self]

/-! ## Dictionary lemmas -/

theorem dict_get_map_set (d : MosDict) (k : String) (v : MOSMapping) :
    dict_get (d.map (fun p => if p.1 = k then (k, v) else p)) k =
      if d.any (fun p => p.1 = k) then some v else none := by
  induction d with
  | nil => rfl
  | cons p t ih =>
    by_cases hp : p.1 = k
    · simp [dict_get, hp]
    · simp only [List.map_cons, dict_get, hp, if_false, if_neg hp, ih,
        List.any_cons]
      rw [decide_false_eq_false, Bool.false_or]

theorem dict_get_append_single (d : MosDict) (k : String) (v : MOSMapping)
    (h : d.any (fun p => p.1 = k) = false) :
    dict_get (d ++ [(k, v)]) k = some v := by
  induction d with
  | nil => simp [dict_get]
  | cons p t ih =>
    by_cases hp : p.1 = k
    · rw [List.any_cons, decide_eq_true hp, Bool.true_or] at h
      cases h
    · have ht : t.any (fun p => p.1 = k) = false := by
        cases hx : t.any (fun p => p.1 = k) with
        | false => rfl
        | true =>
          rw [List.any_cons, hx, Bool.or_true] at h
          cases h
      simp [dict_get, hp, ih ht]

theorem dict_get_set_self (d : MosDict) (k : String) (v : MOSMapping) :
    dict_get (dict_set d k v) k = some v := by
  unfold dict_set
  by_cases h : d.any (fun p => p.1 = k) = true
  · rw [if_pos h, dict_get_map_set, if_pos h]
  · have h' : d.any (fun p => p.1 = k) = false := by
      cases hx : d.any (fun p => p.1 = k) with
      | false => rfl
      | true => exact absurd hx h
    rw [if_neg h]
    exact dict_get_append_single d k v h'

theorem dict_get_map_ne (d : MosDict) (k k' : String) (v : MOSMapping)
    (hne : k' ≠ k) :
    dict_get (d.map (fun p => if p.1 = k then (k, v) else p)) k' =
      dict_get d k' := by
  induction d with
  | nil => rfl
  | cons p t ih =>
    have hk : ¬(k = k') := fun hx => hne hx.symm
    by_cases hp : p.1 = k
    · have hpk : ¬(p.1 = k') := by
        rw [hp]
        exact hk
      simp only [List.map_cons, if_pos hp, dict_get, hk, if_false,
        if_neg hk, if_neg hpk, ih]
    · by_cases hp' : p.1 = k'
      · simp only [List.map_cons, if_neg hp, dict_get, if_pos hp']
      · simp only [List.map_cons, if_neg hp, dict_get, if_neg hp', ih]

theorem dict_get_append_ne (d : MosDict) (k k' : String) (v : MOSMapping)
    (hne : k' ≠ k) :
    dict_get (d ++ [(k, v)]) k' = dict_get d k' := by
  induction d with
  | nil =>
    have hk : k ≠ k' := fun hx => hne hx.symm
    simp [dict_get, hk]
  | cons p t ih =>
    by_cases hp : p.1 = k'
    · simp [dict_get, hp]
    · simp [dict_get, hp, ih]

theorem dict_get_set_ne (d : MosDict) (k k' : String) (v : MOSMapping)
    (hne : k' ≠ k) :
    dict_get (dict_set d k v) k' = dict_get d k' := by
  unfold dict_set
  split_ifs with h
  · exact dict_get_map_ne d k k' v hne
  · exact dict_get_append_ne d k k' v hne

theorem dict_get_mem_values (d : MosDict) (k : String) (v : MOSMapping)
    (h : dict_get d k = some v) : v ∈ dict_values d := by
  induction d with
  | nil => cases h
  | cons p t ih =>
    by_cases hp : p.1 = k
    · have hv : p.2 = v := by simpa [dict_get, hp] using h
      exact hv ▸ List.mem_cons_self p.2 (dict_values t)
    · have h' : dict_get t k = some v := by simpa [dict_get, hp] using h
      exact List.mem_cons_of_mem p.2 (ih h')

theorem dict_get_mem_keys (d : MosDict) (k : String) (v : MOSMapping)
    (h : dict_get d k = some v) : k ∈ d.map Prod.fst := by
  induction d with
  | nil => cases h
  | cons p t ih =>
    by_cases hp : p.1 = k
    · exact hp ▸ List.mem_cons_self p.1 (t.map Prod.fst)
    · have h' : dict_get t k = some v := by simpa [dict_get, hp] using h
      exact List.mem_cons_of_mem p.1 (ih h')

theorem count_values_two (d : MosDict) (k1 k2 : String) (v : MOSMapping)
    (h1 : dict_get d k1 = some v) (h2 : dict_get d k2 = some v)
    (hne : k1 ≠ k2) : 2 ≤ (dict_values d).count v := by
  induction d with
  | nil => cases h1
  | cons p t ih =>
    by_cases hp1 : p.1 = k1
    · have hv : p.2 = v := by simpa [dict_get, hp1] using h1
      have hp2 : p.1 ≠ k2 := fun hx => hne (hp1 ▸ hx)
      have h2' : dict_get t k2 = some v := by simpa [dict_get, hp2] using h2
      have hmem : v ∈ dict_values t := dict_get_mem_values t k2 v h2'
      have hpos : 0 < (dict_values t).count v :=
        List.count_pos_iff.mpr hmem
      have hcons : (dict_values (p :: t)).count v
          = (dict_values t).count v + 1 := by
        simp [dict_values, hv]
      omega
    · by_cases hp2 : p.1 = k2
      · have hv : p.2 = v := by simpa [dict_get, hp2] using h2
        have h1' : dict_get t k1 = some v := by
          simpa [dict_get, hp1] using h1
        have hmem : v ∈ dict_values t := dict_get_mem_values t k1 v h1'
        have hpos : 0 < (dict_values t).count v :=
          List.count_pos_iff.mpr hmem
        have hcons : (dict_values (p :: t)).count v
            = (dict_values t).count v + 1 := by
          simp [dict_values, hv]
        omega
      · have h1' : dict_get t k1 = some v := by
          simpa [dict_get, hp1] using h1
        have h2' : dict_get t k2 = some v := by
          simpa [dict_get, hp2] using h2
        have hle : (dict_values t).count v ≤ (dict_values (p :: t)).count v :=
          List.IsSuffix.count_le (List.suffix_cons p.2 (dict_values t)) v
        have := ih h1' h2'
        omega

/-! ## Head-of-sorted-results lemmas -/

theorem head?_take_pos {α : Type} {l : List α} {n : Nat} (hn : 1 ≤ n) :
    (l.take n).head? = l.head? := by
  cases l with
  | nil => simp
  | cons a t =>
    cases n with
    | zero => omega
    | succ m => rfl

theorem sorted_head_code (q : String) (l : List MOSMapping)
    (hs : List.Sorted (rankLE q) l) (m : MOSMapping) (hm : m ∈ l)
    (hcode : m.code = toUpperStr q) :
    ∃ hd, l.head? = some hd ∧ hd.code = toUpperStr q := by
  cases l with
  | nil => cases hm
  | cons a t =>
    refine ⟨a, rfl, ?_⟩
    by_cases ha : a.code = toUpperStr q
    · exact ha
    · rcases List.mem_cons.mp hm with rfl | hmt
      · exact absurd hcode ha
      · have hr := List.rel_of_sorted_cons hs m hmt
        simp only [rankLE, keyLe, search_rank, if_neg ha, if_pos hcode]
          at hr
        simp at hr

theorem sorted_head_unique (q : String) (l : List MOSMapping)
    (hs : List.Sorted (rankLE q) l) (m : MOSMapping) (hm : m ∈ l)
    (hcode : m.code = toUpperStr q)
    (huniq : ∀ x ∈ l, x.code = toUpperStr q → x = m) :
    l.head? = some m := by
  obtain ⟨hd, hh, hc⟩ := sorted_head_code q l hs m hm hcode
  have hdm : hd ∈ l := List.mem_of_mem_head? hh
  rw [hh, huniq hd hdm hc]

/-! ## C1: GPA conversion -/

/-- C1. For every GPA input convertible to a number the stored GPA follows
the magnitude-based rescaling of `convert_gpa` (as-is up to 4, scaled from a
10-point or 100-point scale, clamped to 4.0 above 100), and empty or
non-numeric input is stored as `none`. -/
theorem gpa_rescaling_claim (g : ℚ) :
    (0 ≤ g → g ≤ 4 → convert_gpa (GpaInput.num g) = some (pyRound2 g)) ∧
    (4 < g → g ≤ 10 →
      convert_gpa (GpaInput.num g) = some (pyRound2 (g / 10 * 4))) ∧
    (10 < g → g ≤ 100 →
      convert_gpa (GpaInput.num g) = some (pyRound2 (g / 100 * 4))) ∧
    (100 < g → convert_gpa (GpaInput.num g) = some 4) ∧
    convert_gpa GpaInput.empty = none ∧
    convert_gpa GpaInput.nonNumeric = none := by
  refine ⟨fun _ h4 => ?_, fun h4 h10 => ?_, fun h10 h100 => ?_,
    fun h100 => ?_, rfl, rfl⟩
  · simp only [convert_gpa, if_pos h4]
  · rw [convert_gpa, if_neg (by linarith), if_pos h10]
  · rw [convert_gpa, if_neg (by linarith), if_neg (by linarith), if_pos h100]
  · rw [convert_gpa, if_neg (by linarith), if_neg (by linarith),
      if_neg (by linarith)]

/-- C1 witness: the spec scenario, a 100-point GPA of 85 is stored
as 3.40. -/
theorem gpa_rescaling_claim_witness :
    convert_gpa (GpaInput.num 85) = some (17 / 5) := by
  have h := (gpa_rescaling_claim 85).2.2.1 (by norm_num) (by norm_num)
  rw [h]
  norm_num [pyRound2, roundHalfEven]

/-! ## C2: phone validation acceptance and errors -/

/-- C2 (amended). Inputs whose extracted digits have length 10, or length 11
with a leading 1 (stripped), are accepted and formatted as
`(XXX) XXX-XXXX`; blank input fails with the `required` message; non-blank
input with no digit at all fails with the `noDigits` message (which does not
name a digit count); every other input fails with the message naming the
digit count found. -/
theorem phone_validation_cases (s : String) :
    (((stripList s.data).filter Char.isDigit).length = 10 →
      format_phone s =
        Except.ok (format10 ((stripList s.data).filter Char.isDigit))) ∧
    (((stripList s.data).filter Char.isDigit).length = 11 →
      ((stripList s.data).filter Char.isDigit).take 1 = ['1'] →
      format_phone s =
        Except.ok (format10 (((stripList s.data).filter Char.isDigit).drop 1))) ∧
    ((stripList s.data).isEmpty = true →
      format_phone s = Except.error PhoneError.required) ∧
    ((stripList s.data).isEmpty = false →
      (stripList s.data).filter Char.isDigit = [] →
      format_phone s = Except.error PhoneError.noDigits) ∧
    ((stripList s.data).filter Char.isDigit ≠ [] →
      ((stripList s.data).filter Char.isDigit).length ≠ 10 →
      ¬(((stripList s.data).filter Char.isDigit).length = 11 ∧
        ((stripList s.data).filter Char.isDigit).take 1 = ['1']) →
      format_phone s =
        Except.error
          (PhoneError.badLength
            ((stripList s.data).filter Char.isDigit).length)) := by
  have hall := all_of_filter Char.isDigit (stripList s.data)
  refine ⟨fun h10 => ?_, fun h11 h1 => ?_, fun hemp => ?_,
    fun hemp hnil => ?_, fun hne h10 h11 => ?_⟩
  · have hsne : stripList s.data ≠ [] := by
      intro hx; rw [hx] at h10; simp at h10
    have hfne : (stripList s.data).filter Char.isDigit ≠ [] := by
      intro hx; rw [hx] at h10; simp at h10
    simp only [format_phone]
    rw [if_neg (by simp [isEmpty_false_of_ne_nil hsne]),
      if_neg (by simp [isEmpty_false_of_ne_nil hfne]),
      if_neg (by simp [hall]), if_pos h10]
  · have hsne : stripList s.data ≠ [] := by
      intro hx; rw [hx] at h11; simp at h11
    have hfne : (stripList s.data).filter Char.isDigit ≠ [] := by
      intro hx; rw [hx] at h11; simp at h11
    have hlen10 : ¬((stripList s.data).filter Char.isDigit).length = 10 := by
      rw [h11]; omega
    have hdrop :
        ((((stripList s.data).filter Char.isDigit).drop 1).length) = 10 := by
      rw [List.length_drop, h11]
    simp only [format_phone]
    rw [if_neg (by simp [isEmpty_false_of_ne_nil hsne]),
      if_neg (by simp [isEmpty_false_of_ne_nil hfne]),
      if_neg (by simp [hall]), if_neg hlen10,
      if_pos (by rw [h11, h1]; decide)]
    simp [hdrop, h11]
  · simp only [format_phone]
    rw [if_pos hemp]
  · simp only [format_phone]
    rw [if_neg (by simp [hemp]), if_pos (by simp [hnil])]
  · have hsne : stripList s.data ≠ [] := by
      intro hx
      apply hne
      rw [hx]
      rfl
    simp only [format_phone]
    rw [if_neg (by simp [isEmpty_false_of_ne_nil hsne]),
      if_neg (by simp [isEmpty_false_of_ne_nil hne]),
      if_neg (by simp [hall]), if_neg h10, if_neg]
    simp only [Bool.and_eq_true, decide_eq_true_eq]
    exact fun hx => h11 hx

/-- C2 counterexample: the input consisting of a single dash fails (its digit
count is 0), but with the `Phone number must contain at least one digit`
message, which does not name the digit count found. -/
theorem phone_zero_digit_message :
    format_phone "-" = Except.error PhoneError.noDigits := by rfl

/-- C2 witness: the spec scenario, `963-258-7410` is accepted and formatted
as `(963) 258-7410`. -/
theorem phone_validation_cases_witness :
    format_phone "963-258-7410" = Except.ok "(963) 258-7410" := by
  have h := (phone_validation_cases "963-258-7410").1 (by decide)
  rw [h]
  rfl

/-! ## C3: phone normalization is idempotent -/

theorem format10_data (ds : List Char) :
    (format10 ds).data =
      '(' :: (ds.take 3 ++ ')' :: ' ' ::
        ((ds.drop 3).take 3 ++ '-' :: ds.drop 6)) := by
  simp [format10, String.data_append]

theorem filter_format10 (ds : List Char)
    (hdig : ∀ c ∈ ds, c.isDigit = true) :
    ((format10 ds).data).filter Char.isDigit = ds := by
  rw [format10_data]
  rw [List.filter_cons_of_neg (by decide), List.filter_append,
    List.filter_cons_of_neg (by decide), List.filter_cons_of_neg (by decide),
    List.filter_append, List.filter_cons_of_neg (by decide)]
  rw [List.filter_eq_self.mpr (fun a ha => hdig a (List.take_subset 3 ds ha)),
    List.filter_eq_self.mpr
      (fun a ha => hdig a (List.drop_subset 3 ds (List.take_subset _ _ ha))),
    List.filter_eq_self.mpr (fun a ha => hdig a (List.drop_subset 6 ds ha))]
  have h63 : ds.drop 6 = (ds.drop 3).drop 3 := by
    rw [List.drop_drop]
  rw [h63, List.take_append_drop, List.take_append_drop]

theorem format_phone_of_formatted (ds : List Char) (hlen : ds.length = 10)
    (hdig : ∀ c ∈ ds, c.isDigit = true) :
    format_phone (format10 ds) = Except.ok (format10 ds) := by
  have hfilter :
      (stripList (format10 ds).data).filter Char.isDigit = ds := by
    rw [filter_stripList, filter_format10 ds hdig]
  have hsne : stripList (format10 ds).data ≠ [] := by
    intro hx
    rw [hx] at hfilter
    rw [← hfilter] at hlen
    simp at hlen
  have hfne : (stripList (format10 ds).data).filter Char.isDigit ≠ [] := by
    rw [hfilter]
    intro hx
    rw [hx] at hlen
    simp at hlen
  simp only [format_phone]
  rw [if_neg (by simp [isEmpty_false_of_ne_nil hsne]),
    if_neg (by simp [isEmpty_false_of_ne_nil hfne]),
    if_neg (by simp [all_of_filter]),
    if_pos (by rw [hfilter]; exact hlen), hfilter]

theorem format_phone_ok_inv (s r : String)
    (h : format_phone s = Except.ok r) :
    ∃ ds : List Char, ds.length = 10 ∧ (∀ c ∈ ds, c.isDigit = true) ∧
      r = format10 ds := by
  have hdig : ∀ c ∈ (stripList s.data).filter Char.isDigit,
      c.isDigit = true := fun c hc => (List.mem_filter.mp hc).2
  simp only [format_phone] at h
  by_cases h1 : (stripList s.data).isEmpty = true
  · rw [if_pos h1] at h
    exact absurd h (by simp)
  rw [if_neg h1] at h
  by_cases h2 : ((stripList s.data).filter Char.isDigit).isEmpty = true
  · rw [if_pos h2] at h
    exact absurd h (by simp)
  rw [if_neg h2] at h
  by_cases h3 :
      (!((stripList s.data).filter Char.isDigit).all Char.isDigit) = true
  · rw [if_pos h3] at h
    exact absurd h (by simp)
  rw [if_neg h3] at h
  by_cases h4 : ((stripList s.data).filter Char.isDigit).length = 10
  · rw [if_pos h4] at h
    exact ⟨(stripList s.data).filter Char.isDigit, h4, hdig,
      (Except.ok.inj h).symm⟩
  rw [if_neg h4] at h
  by_cases h5 :
      (decide (((stripList s.data).filter Char.isDigit).length = 11) &&
        decide (((stripList s.data).filter Char.isDigit).take 1 = ['1']))
          = true
  · rw [if_pos h5] at h
    have h11 : ((stripList s.data).filter Char.isDigit).length = 11 :=
      of_decide_eq_true ((Bool.and_eq_true _ _).mp h5).1
    have hd10 :
        ((((stripList s.data).filter Char.isDigit).drop 1).length) = 10 := by
      rw [List.length_drop, h11]
    rw [if_neg (not_not_intro hd10)] at h
    exact ⟨((stripList s.data).filter Char.isDigit).drop 1, hd10,
      fun c hc => hdig c (List.drop_subset 1 _ hc), (Except.ok.inj h).symm⟩
  · rw [if_neg h5] at h
    exact absurd h (by simp)

/-- C3. Phone normalization is idempotent: whenever `format_phone` accepts
an input and produces a normalized string, running `format_phone` on that
normalized string accepts it and returns it unchanged. -/
theorem phone_normalization_idempotent (s r : String)
    (h : format_phone s = Except.ok r) :
    format_phone r = Except.ok r := by
  obtain ⟨ds, hlen, hdig, hr⟩ := format_phone_ok_inv s r h
  rw [hr]
  exact format_phone_of_formatted ds hlen hdig

/-- C3 witness: normalizing the already-normalized form of the spec
scenario phone number returns it unchanged. -/
theorem phone_normalization_idempotent_witness :
    format_phone "(963) 258-7410" = Except.ok "(963) 258-7410" :=
  phone_normalization_idempotent "963-258-7410" "(963) 258-7410" (by rfl)

/-! ## C4: unparseable dates get a silent sentinel (code bug) -/

/-- C4 (code bug evidence). For every current date, the `parse_date` helper
maps non-empty strings matching none of the accepted formats, such as
`junk` or `not-a-date`, to January 1 of the current year silently, instead
of failing with an InvalidDateFormat error: the `Option` result has no
error channel at all (`none` means an open-ended date, as for `present`),
so the substitution is indistinguishable from real data. -/
theorem parse_date_silent_sentinel (today : PyDate) :
    parse_date today "junk" = some ⟨today.year, 1, 1⟩ ∧
    parse_date today "not-a-date" = some ⟨today.year, 1, 1⟩ :=
  ⟨rfl, rfl⟩

/-! ## C5: error wrapping and the non-atomic final write -/

/-- C5 counterexample: the complete write trace of
`ResumeService.generate_resume` is a single direct `doc.save` at the final
output path; there is no temporary path and no rename, so the write is not
atomic and a failing save can leave a partial file at the destination. -/
theorem generate_resume_writes_directly :
    generate_resume_file_ops "output" "resume_jane_doe_20260101_000000.docx"
      = [FileOp.save "output/resume_jane_doe_20260101_000000.docx"] := rfl

/-- C5 (amended). On engine failure the service re-raises an error whose
message embeds the original error text, and the only filesystem write is a
direct save at the final output path (no temporary file, no move). -/
theorem generate_resume_error_wrapping (e outdir fname : String) :
    generate_resume_result (Except.error e) outdir fname =
      Except.error ("Failed to generate resume: " ++ e) ∧
    generate_resume_result (Except.ok ()) outdir fname =
      Except.ok (resume_output_path outdir fname) ∧
    generate_resume_file_ops outdir fname =
      [FileOp.save (resume_output_path outdir fname)] :=
  ⟨rfl, rfl, rfl⟩

/-! ## C7: the contact line keeps empty required parts -/

theorem clearance_label_ne_empty (c : String) : "Clearance: " ++ c ≠ "" := by
  intro h
  have hd := congrArg String.data h
  rw [String.data_append] at hd
  simp at hd

theorem mem_optional_parts_ne_empty {p : String} (li cl : Option String)
    (hp : p ∈ optional_parts li cl) : p ≠ "" := by
  unfold optional_parts at hp
  rw [List.mem_append] at hp
  rcases hp with hp | hp
  · cases li with
    | none => cases hp
    | some l =>
      dsimp only at hp
      by_cases hl : l ≠ ""
      · rw [if_pos hl] at hp
        rw [List.mem_singleton.mp hp]
        exact hl
      · rw [if_neg hl] at hp
        cases hp
  · cases cl with
    | none => cases hp
    | some c =>
      dsimp only at hp
      by_cases hc : (c ≠ "" && c ≠ "None") = true
      · rw [if_pos hc] at hp
        rw [List.mem_singleton.mp hp]
        exact clearance_label_ne_empty c
      · rw [if_neg hc] at hp
        cases hp

/-- C7 (amended). The contact line always includes location, phone and
email verbatim, even when empty; only the LinkedIn and clearance parts are
filtered (and never contribute an empty part); consequently when city and
state are both empty the line begins with a separator adjacent to the empty
location part. -/
theorem contact_line_parts (city state phone email : String)
    (linkedin : Option String) (sc : String) :
    (∀ p ∈ optional_parts linkedin
        (if sc ≠ "None" then some sc else none), p ≠ "") ∧
    add_contact_section_line city state phone email linkedin sc =
      pyJoin " | " ([format_location city state, phone, email] ++
        optional_parts linkedin (if sc ≠ "None" then some sc else none)) ∧
    (city = "" → state = "" →
      add_contact_section_line city state phone email linkedin sc =
        " | " ++ pyJoin " | " ([phone, email] ++
          optional_parts linkedin (if sc ≠ "None" then some sc else none))) := by
  refine ⟨fun p hp => mem_optional_parts_ne_empty _ _ hp, rfl, ?_⟩
  intro hc hs
  subst hc
  subst hs
  rfl

/-- C7 counterexample: with city and state empty the rendered contact line
starts with a separator adjacent to the empty location part, which is not
omitted. -/
theorem contact_line_empty_location :
    add_contact_section_line "" "" "(963) 258-7410" "john@example.com"
      none "None" = " | (963) 258-7410 | john@example.com" := rfl

/-- C7 witness: the amended theorem applied to a concrete contact with
empty city and state exhibits the leading separator. -/
theorem contact_line_parts_witness :
    add_contact_section_line "" "" "(111) 222-3333" "vet@example.org"
      none "None" = " | (111) 222-3333 | vet@example.org" := by
  have h := (contact_line_parts "" "" "(111) 222-3333" "vet@example.org"
    none "None").2.2 rfl rfl
  rw [h]
  rfl

/-! ## C9: skills merge keeps duplicates inside the first source -/

theorem add_unique_append (acc xs ys : List String) :
    add_unique acc (xs ++ ys) = add_unique (add_unique acc xs) ys := by
  simp [add_unique, List.foldl_append]

theorem add_unique_of_disjoint_nodup (a : List String) :
    ∀ acc : List String, (∀ x ∈ a, x ∉ acc) → a.Nodup →
      add_unique acc a = acc ++ a := by
  induction a with
  | nil => intro acc _ _; simp [add_unique]
  | cons x t ih =>
    intro acc hdisj hnd
    have hx : x ∉ acc := hdisj x (List.mem_cons_self x t)
    have hstep : add_unique acc (x :: t) = add_unique (acc ++ [x]) t := by
      simp [add_unique, List.foldl_cons, hx]
    rw [hstep, ih (acc ++ [x]) ?_ (List.nodup_cons.mp hnd).2]
    · rw [List.append_assoc, List.singleton_append]
    · intro y hy
      rw [List.mem_append, List.mem_singleton]
      rintro (hya | rfl)
      · exact hdisj y (List.mem_cons_of_mem x hy) hya
      · exact (List.nodup_cons.mp hnd).1 hy

/-- C9 (amended). The skills line merges the five sources in priority order
with de-duplication applied to every source after the first: when the
MOS-translated list itself has no duplicates the result coincides with the
fully de-duplicated merge of the spec, but duplicates inside the
MOS-translated list are kept verbatim; the section is rendered exactly when
the merged list is non-empty, as a single comma-joined line. -/
theorem skills_merge_claim (a b c d e : List String) :
    (a.Nodup → merge_skills a b c d e = spec_merge_skills a b c d e) ∧
    (skills_text a b c d e = none ↔ merge_skills a b c d e = []) ∧
    (merge_skills a b c d e ≠ [] →
      skills_text a b c d e = some (pyJoin ", " (merge_skills a b c d e))) := by
  refine ⟨fun hnd => ?_, ?_, fun hne => ?_⟩
  · unfold spec_merge_skills merge_skills
    rw [add_unique_append, add_unique_append, add_unique_append,
      add_unique_append,
      add_unique_of_disjoint_nodup a [] (by intro x _ hx; cases hx) hnd,
      List.nil_append]
  · unfold skills_text
    rcases hm : merge_skills a b c d e with _ | ⟨x, t⟩ <;> simp
  · unfold skills_text
    rcases hm : merge_skills a b c d e with _ | ⟨x, t⟩
    · exact absurd hm hne
    · simp

/-- C9 counterexample: a duplicated entry inside the MOS-translated skills
is rendered twice, while the merge described by the claim removes it. -/
theorem skills_merge_duplicate :
    skills_text ["A", "A"] [] [] [] [] = some "A, A" ∧
    spec_merge_skills ["A", "A"] [] [] [] [] = ["A"] := ⟨rfl, rfl⟩

/-- C9 witness: on a duplicate-free MOS-translated list the code merge and
the spec merge agree. -/
theorem skills_merge_claim_witness :
    merge_skills ["Leadership"] ["Leadership", "Logistics"] [] ["Teamwork"]
      [] = spec_merge_skills ["Leadership"] ["Leadership", "Logistics"] []
        ["Teamwork"] [] :=
  (skills_merge_claim ["Leadership"] ["Leadership", "Logistics"] []
    ["Teamwork"] []).1 (by decide)

/-! ## C6: search ranking and truncation -/

/-- C6. For a loaded catalog, a query of length at least 2 and a limit:
the search result is truncated to at most `limit` entries, is ordered by
the rank (entries whose code equals the uppercased query first, then
entries whose lowercased title contains the query, remaining ties by
ascending code string), and contains exactly matching catalog entries; if
some entry has the uppercased query as its code the first result has that
code, and if that entry is the only one with that code it is itself the
first result. -/
theorem search_ranking_claim (d : MosDict) (q : String) (limit : Nat)
    (hq : 2 ≤ q.length) :
    (search_mos d q limit).length ≤ limit ∧
    List.Sorted (rankLE q) (search_mos d q limit) ∧
    (∀ m ∈ search_mos d q limit,
      m ∈ dict_values d ∧ matches_query m q = true) ∧
    (∀ m ∈ dict_values d, m.code = toUpperStr q → 1 ≤ limit →
      ∃ hd, (search_mos d q limit).head? = some hd ∧
        hd.code = toUpperStr q) ∧
    (∀ m ∈ dict_values d, m.code = toUpperStr q →
      (∀ x ∈ dict_values d, x.code = toUpperStr q → x = m) → 1 ≤ limit →
      (search_mos d q limit).head? = some m) := by
  have hres : search_mos d q limit =
      (List.insertionSort (rankLE q)
        ((dict_values d).filter (fun m => matches_query m q))).take
          limit := by
    unfold search_mos
    rw [if_neg]
    simp only [Bool.or_eq_true, decide_eq_true_eq]
    rintro (h | h)
    · rw [h] at hq
      exact absurd hq (by decide)
    · omega
  refine ⟨?_, ?_, ?_, ?_, ?_⟩
  · rw [hres, List.length_take]
    exact Nat.min_le_left _ _
  · rw [hres]
    exact List.Pairwise.sublist (List.take_sublist _ _)
      (List.sorted_insertionSort (rankLE q) _)
  · intro m hm
    rw [hres] at hm
    have hm' := List.take_subset _ _ hm
    rw [List.mem_insertionSort] at hm'
    exact ⟨(List.mem_filter.mp hm').1, (List.mem_filter.mp hm').2⟩
  · intro m hmv hcode hlim
    have hmem : m ∈ List.insertionSort (rankLE q)
        ((dict_values d).filter (fun x => matches_query x q)) := by
      rw [List.mem_insertionSort]
      exact List.mem_filter.mpr ⟨hmv, matches_query_of_code m q hcode⟩
    obtain ⟨hd, hh, hc⟩ := sorted_head_code q _
      (List.sorted_insertionSort (rankLE q) _) m hmem hcode
    refine ⟨hd, ?_, hc⟩
    rw [hres, head?_take_pos hlim, hh]
  · intro m hmv hcode huniq hlim
    have hmem : m ∈ List.insertionSort (rankLE q)
        ((dict_values d).filter (fun x => matches_query x q)) := by
      rw [List.mem_insertionSort]
      exact List.mem_filter.mpr ⟨hmv, matches_query_of_code m q hcode⟩
    have hh := sorted_head_unique q _
      (List.sorted_insertionSort (rankLE q) _) m hmem hcode ?_
    · rw [hres, head?_take_pos hlim, hh]
    · intro x hx hxc
      rw [List.mem_insertionSort] at hx
      exact huniq x (List.mem_filter.mp hx).1 hxc

/-- C6 witness: the spec scenario, a catalog holding code 11B searched for
the exact code 11B returns that entry first. -/
theorem search_ranking_claim_witness :
    (search_mos [("11B", build_mapping sample_row)] "11B" 10).head?
      = some (build_mapping sample_row) :=
  (search_ranking_claim [("11B", build_mapping sample_row)] "11B" 10
    (by decide)).2.2.2.2 (build_mapping sample_row)
    (List.mem_singleton_self _) (by decide)
    (fun x hx _ => List.mem_singleton.mp hx) (by decide)

/-! ## C10: the same entry is stored under code and lookup key -/

/-- C10. Loading a row with a non-empty normalized code and a non-empty
composite lookup key different from the code stores the same entry under
both keys; both keys appear in `get_all_codes`, and a search whose query
matches the entry (with a limit covering all matches) returns the identical
entry at two distinct positions, witnessed by a count of at least two. -/
theorem dual_key_index_claim (d : MosDict) (r : MosRow)
    (hc : toUpperStr (pyStrip r.code) ≠ "")
    (hl : r.csv_lookup_key ≠ "")
    (hne : r.csv_lookup_key ≠ toUpperStr (pyStrip r.code)) :
    dict_get (load_row d r) (toUpperStr (pyStrip r.code))
        = some (build_mapping r) ∧
    dict_get (load_row d r) r.csv_lookup_key = some (build_mapping r) ∧
    toUpperStr (pyStrip r.code) ∈ get_all_codes (load_row d r) ∧
    r.csv_lookup_key ∈ get_all_codes (load_row d r) ∧
    (∀ q limit, 2 ≤ q.length →
      matches_query (build_mapping r) q = true →
      ((dict_values (load_row d r)).filter
        (fun m => matches_query m q)).length ≤ limit →
      2 ≤ (search_mos (load_row d r) q limit).count (build_mapping r)) := by
  have hrow : load_row d r =
      dict_set (dict_set d (toUpperStr (pyStrip r.code)) (build_mapping r))
        r.csv_lookup_key (build_mapping r) := by
    unfold load_row
    rw [if_neg hc, if_pos hl]
  have hne' : toUpperStr (pyStrip r.code) ≠ r.csv_lookup_key :=
    fun hx => hne hx.symm
  have hget1 : dict_get (load_row d r) (toUpperStr (pyStrip r.code))
      = some (build_mapping r) := by
    rw [hrow, dict_get_set_ne _ _ _ _ hne', dict_get_set_self]
  have hget2 : dict_get (load_row d r) r.csv_lookup_key
      = some (build_mapping r) := by
    rw [hrow, dict_get_set_self]
  refine ⟨hget1, hget2, ?_, ?_, ?_⟩
  · unfold get_all_codes
    rw [List.mem_insertionSort]
    exact dict_get_mem_keys _ _ _ hget1
  · unfold get_all_codes
    rw [List.mem_insertionSort]
    exact dict_get_mem_keys _ _ _ hget2
  · intro q limit hq hmatch hlen
    have hres : search_mos (load_row d r) q limit =
        (List.insertionSort (rankLE q)
          ((dict_values (load_row d r)).filter
            (fun m => matches_query m q))).take limit := by
      unfold search_mos
      rw [if_neg]
      simp only [Bool.or_eq_true, decide_eq_true_eq]
      rintro (h | h)
      · rw [h] at hq
        exact absurd hq (by decide)
      · omega
    have hsortlen : (List.insertionSort (rankLE q)
        ((dict_values (load_row d r)).filter
          (fun m => matches_query m q))).length ≤ limit := by
      rw [(List.perm_insertionSort (rankLE q) _).length_eq]
      exact hlen
    have hcount2 : 2 ≤ (dict_values (load_row d r)).count
        (build_mapping r) :=
      count_values_two _ _ _ _ hget1 hget2 hne'
    have hcf : ((dict_values (load_row d r)).filter
        (fun m => matches_query m q)).count (build_mapping r)
        = (dict_values (load_row d r)).count (build_mapping r) :=
      List.count_filter hmatch
    have hcs : (List.insertionSort (rankLE q)
        ((dict_values (load_row d r)).filter
          (fun m => matches_query m q))).count (build_mapping r)
        = ((dict_values (load_row d r)).filter
          (fun m => matches_query m q)).count (build_mapping r) :=
      (List.perm_insertionSort (rankLE q) _).count_eq _
    rw [hres, List.take_of_length_le hsortlen, hcs, hcf]
    exact hcount2

/-- C10 witness: loading the sample row into an empty index and searching
for its code returns the identical entry at two distinct positions. -/
theorem dual_key_index_claim_witness :
    2 ≤ (search_mos (load_row [] sample_row) "11B" 5).count
      (build_mapping sample_row) :=
  (dual_key_index_claim [] sample_row (by decide) (by decide)
    (by decide)).2.2.2.2 "11B" 5 (by decide) (by decide) (by decide)

/-! ## C8: end date not before start date -/

/-- C8. With both dates present, validation fails with the date-range error
exactly when the end date strictly precedes the start date, and otherwise
returns the entry unchanged. -/
theorem end_date_range_claim (start e : PyDate) :
    (validate_end_date start (some e) =
        Except.error "end_date must be after start_date" ↔
      dateLt e start = true) ∧
    (dateLt e start = false →
      validate_end_date start (some e) = Except.ok (some e)) := by
  by_cases hd : dateLt e start = true
  · refine ⟨⟨fun _ => hd, fun _ => by simp [validate_end_date, hd]⟩,
      fun h => ?_⟩
    rw [hd] at h
    cases h
  · have hd' : dateLt e start = false := by simpa using hd
    refine ⟨⟨fun h => ?_, fun h => ?_⟩,
      fun _ => by simp [validate_end_date, hd']⟩
    · simp [validate_end_date, hd'] at h
    · rw [hd'] at h
      cases h

/-- C8 witness: the spec scenario, end date 2019-01-01 before start date
2020-01-01 is rejected, and the reversed pair is accepted unchanged. -/
theorem end_date_range_claim_witness :
    validate_end_date ⟨2020, 1, 1⟩ (some ⟨2019, 1, 1⟩) =
        Except.error "end_date must be after start_date" ∧
      validate_end_date ⟨2019, 1, 1⟩ (some ⟨2020, 1, 1⟩) =
        Except.ok (some ⟨2020, 1, 1⟩) :=
  ⟨(end_date_range_claim ⟨2020, 1, 1⟩ ⟨2019, 1, 1⟩).1.mpr (by decide),
    (end_date_range_claim ⟨2019, 1, 1⟩ ⟨2020, 1, 1⟩).2 (by decide)⟩

end ResumeBuilder
